import Mathlib

/-!
Verification of the public-bucket-scanner core: content analyzer, permission
checker, base scanner composite scan, provider existence checks, and the
multi-provider orchestrator.  The Python source is embedded shallowly:

* pure helpers become Lean functions over `List String` and `Nat`;
* the regex tables use only literal substrings, end-anchored literals and
  optional single characters, so every pattern is represented exactly as a
  finite alternation of literal substring or end-of-string tests;
* Python `str.lower` is modelled on ASCII via `Char.toLower` (every pattern
  in the source is ASCII);
* the expression `int(ratio * 50)` in `_calculate_risk_score` performs two
  IEEE-754 binary64 roundings (the division and the multiplication by 50)
  followed by truncation; it is modelled exactly by `pyRatioTerm`, which
  computes round-to-nearest-even at 53 significant bits with integer
  arithmetic (normal range; the subnormal/overflow regime is unreachable for
  any remotely realistic list length);
* effectful steps (HTTP probes, native client calls) become explicit outcome
  values passed to the embedded control flow, with `Except String` modelling
  a step that may raise an exception carrying a message.
-/

/-! ## Generic string helpers -/

/-- Does the needle occur at the head of the haystack (character lists). -/
def strPre : List Char → List Char → Bool
  | [], _ => true
  | _ :: _, [] => false
  | a :: n, b :: h => a == b && strPre n h

/-- Does the needle occur as a contiguous substring of the haystack. -/
def subAt (n : List Char) : List Char → Bool
  | [] => strPre n []
  | c :: h => strPre n (c :: h) || subAt n h

/-- Python `needle in hay` on strings. -/
def subStr (needle hay : String) : Bool := subAt needle.toList hay.toList

/-- Python `hay.endswith(needle)` / an end-anchored regex literal. -/
def endStr (needle hay : String) : Bool := strPre needle.toList.reverse hay.toList.reverse

/-- Python `str.lower`, restricted to ASCII (all patterns in the source are ASCII). -/
def lowerS (s : String) : String := ⟨s.toList.map Char.toLower⟩

/-! ## Exact binary64 model for `int(ratio * 50)`

`log2N` is a fuel-based binary logarithm that the kernel can evaluate on
literals; `rneDiv` rounds a quotient of naturals to the nearest integer with
ties to even; `flDivM` returns the 53-bit round-to-nearest-even value of a
quotient as a mantissa/exponent pair; `pyRatioTerm s f` is exactly what
CPython computes for `int(s / f * 50)` with `s`, `f` positive ints in the
binary64 normal range. -/

/-- Fuel-driven floor of the binary logarithm. -/
def log2F : Nat → Nat → Nat
  | 0, _ => 0
  | fuel+1, n => if 2 ≤ n then log2F fuel (n / 2) + 1 else 0

/-- Floor of the binary logarithm of a natural number (0 for 0). -/
def log2N (n : Nat) : Nat := log2F n n

/-- Round a / b to the nearest integer, ties to even. -/
def rneDiv (a b : Nat) : Nat :=
  let q := a / b
  let r := a % b
  if 2 * r < b then q
  else if b < 2 * r then q + 1
  else if q % 2 = 0 then q else q + 1

/-- Floor of the binary logarithm of the positive rational a / b. -/
def ilogR (a b : Nat) : Int :=
  let c : Int := (log2N a : Int) - (log2N b : Int)
  if b * 2 ^ c.toNat ≤ a * 2 ^ (-c).toNat then c else c - 1

/-- Binary64 rounding of a / b: mantissa in [2^52, 2^53] and binary exponent,
with value mantissa * 2 ^ exponent. -/
def flDivM (a b : Nat) : Nat × Int :=
  let e : Int := ilogR a b - 52
  if e ≤ 0 then (rneDiv (a * 2 ^ (-e).toNat) b, e)
  else (rneDiv a (b * 2 ^ e.toNat), e)

/-- Exact value of CPython `int(s / f * 50)` for positive machine ints in the
binary64 normal range: round s / f to binary64, multiply by 50 and round
again, truncate toward zero. -/
def pyRatioTerm (s f : Nat) : Nat :=
  let p1 := flDivM s f
  let p2 := flDivM (50 * p1.1) (2 ^ (-p1.2).toNat)
  if p2.2 ≤ 0 then p2.1 / 2 ^ (-p2.2).toNat else p2.1 * 2 ^ p2.2.toNat

/-- Rational value of a mantissa/exponent pair (proof-side only). -/
def mval (p : Nat × Int) : ℚ := (p.1 : ℚ) * (2 : ℚ) ^ p.2

/-- Round a rational to the nearest integer, ties to even (proof-side mirror
of `rneDiv`). -/
def rneInt (q : ℚ) : ℤ :=
  if q - ⌊q⌋ < 1/2 then ⌊q⌋
  else if (1 : ℚ)/2 < q - ⌊q⌋ then ⌊q⌋ + 1
  else if ⌊q⌋ % 2 = 0 then ⌊q⌋ else ⌊q⌋ + 1

/-! ## ContentAnalyzer (src/src/workers/content_analyzer.py) -/

namespace ContentAnalyzer

/-- One regex from `SENSITIVE_PATTERNS`, expanded to its literal alternatives:
`hasAny ss` is an unanchored `re.search` of an alternation of literals,
`endAny ss` an end-anchored one. -/
inductive Pat
  | hasAny (ss : List String)
  | endAny (ss : List String)
  deriving DecidableEq, Repr

/-- The result of `re.search(pattern, fileLower)` as a Boolean. -/
def Pat.search (p : Pat) (t : String) : Bool :=
  match p with
  | .hasAny ss => ss.any (fun s => subStr s t)
  | .endAny ss => ss.any (fun s => endStr s t)

/-- `ContentAnalyzer.SENSITIVE_PATTERNS`, category order as in the source. -/
def SENSITIVE_PATTERNS : List (String × List Pat) :=
  [ ("credentials",
      [ .endAny [".env"], .hasAny [".env."],
        .hasAny ["secret"], .hasAny ["password"], .hasAny ["passwd"],
        .hasAny ["credential"], .hasAny ["creds"],
        .hasAny ["auth"], .hasAny ["token"], .hasAny ["apikey", "api-key", "api_key"] ]),
    ("private_keys",
      [ .endAny [".pem"], .endAny [".key"], .endAny [".ppk"],
        .hasAny ["privatekey", "private-key", "private_key"], .hasAny ["id_rsa"], .hasAny ["id_dsa"],
        .endAny [".p12"], .endAny [".pfx"] ]),
    ("config_files",
      [ .endAny ["config.json", "config.xml", "config.yml", "config.yaml", "config.ini", "config.conf"],
        .endAny ["wp-config.php"],
        .endAny ["settings.py", "settings.json", "settings.xml"],
        .endAny [".htaccess"], .endAny [".htpasswd"] ]),
    ("database",
      [ .endAny [".sql"], .endAny [".db"], .hasAny [".sqlite"],
        .hasAny ["database"], .hasAny ["backup."], .hasAny ["dump."],
        .endAny [".mdb"], .endAny [".accdb"] ]),
    ("source_code",
      [ .hasAny [".git/"], .hasAny [".svn/"], .hasAny [".hg/"],
        .hasAny [".env.local"], .hasAny [".env.production"] ]),
    ("cloud_config",
      [ .hasAny [".aws/"], .hasAny [".azure/"], .hasAny [".gcp/"],
        .hasAny ["credentials.json"], .hasAny ["serviceaccount", "service-account", "service_account"] ]),
    ("logs",
      [ .endAny [".log"], .hasAny ["access_log"], .hasAny ["error_log"],
        .hasAny ["debug."], .hasAny ["trace."] ]) ]

/-- One file matches one category when some pattern of the category fires. -/
def catMatch (pats : List Pat) (file : String) : Bool :=
  pats.any (fun p => p.search (lowerS file))

/-- Inner loops of `_detect_sensitive_files` for one file: walk the category
table; on the first pattern hit of a category append the file once; after the
category, stop as soon as the file name is already in the accumulator (this
reproduces the `break` structure of the source exactly, including its
behaviour on duplicate names). -/
def detectCats (file : String) : List (String × List Pat) → List String → List String
  | [], acc => acc
  | (_, pats) :: rest, acc =>
      let acc1 := if catMatch pats file then acc ++ [file] else acc
      if acc1.contains file then acc1 else detectCats file rest acc1

/-- `ContentAnalyzer._detect_sensitive_files`. -/
def detect_sensitive_files (files : List String) : List String :=
  files.foldl (fun acc file => detectCats file SENSITIVE_PATTERNS acc) []

/-- Extension bucket of one file name: lowercased substring after the last
dot, or `no_extension` (mirrors `rsplit` in `_analyze_file_types`). -/
def extOf (file : String) : String :=
  let cs := file.toList
  if cs.contains '.' then
    ⟨((cs.reverse.takeWhile (fun c => !(c == '.'))).reverse).map Char.toLower⟩
  else "no_extension"

/-- Insertion-ordered counter bump, mirroring a Python dict update. -/
def bump (k : String) : List (String × Nat) → List (String × Nat)
  | [] => [(k, 1)]
  | (k1, v) :: rest => if k1 == k then (k1, v + 1) :: rest else (k1, v) :: bump k rest

/-- `ContentAnalyzer._analyze_file_types`. -/
def analyze_file_types (files : List String) : List (String × Nat) :=
  files.foldl (fun m file => bump (extOf file) m) []

/-- The `high_risk_patterns` list of `_calculate_risk_score`. -/
def high_risk_patterns : List String :=
  ["password", "secret", ".env", "credential", "private", ".key", ".pem", "id_rsa"]

/-- Is a file one of the high-risk ones (5 bonus points each). -/
def isHighRisk (file : String) : Bool :=
  high_risk_patterns.any (fun p => subStr p (lowerS file))

/-- `ContentAnalyzer._calculate_risk_score`.  The ratio contribution
`int(ratio * 50)` is the exact binary64 evaluation `pyRatioTerm`. -/
def calculate_risk_score (files sensitive_files : List String) : Nat :=
  if files.isEmpty then 0
  else
    let base := 10
    let sizeScore :=
      if 1000 < files.length then 20
      else if 100 < files.length then 15
      else if 10 < files.length then 10
      else 5
    let ratioScore :=
      if sensitive_files.isEmpty then 0
      else pyRatioTerm sensitive_files.length files.length
    let bonus := 5 * (sensitive_files.filter isHighRisk).length
    min (base + sizeScore + ratioScore + bonus) 100

/-- Insertion-ordered append into the `categorized` dict of
`_generate_findings`. -/
def addCat (c file : String) : List (String × List String) → List (String × List String)
  | [] => [(c, [file])]
  | (c1, fs) :: rest =>
      if c1 == c then (c1, fs ++ [file]) :: rest else (c1, fs) :: addCat c file rest

/-- Grouping loop of `_generate_findings`: for each sensitive file, append it
to the bucket of every category whose pattern table matches (the `break` in
the source only leaves the inner pattern loop, not the category loop). -/
def categorize (sensitive_files : List String) : List (String × List String) :=
  sensitive_files.foldl
    (fun m file =>
      SENSITIVE_PATTERNS.foldl
        (fun m1 cp => if catMatch cp.2 file then addCat cp.1 file m1 else m1) m)
    []

/-- `ContentAnalyzer._get_category_severity`. -/
def get_category_severity (category : String) : String :=
  if ["credentials", "private_keys", "cloud_config"].contains category then "critical"
  else if ["database", "config_files"].contains category then "high"
  else if ["source_code", "logs"].contains category then "medium"
  else "low"

/-- `ContentAnalyzer._get_category_description`. -/
def get_category_description (category : String) : String :=
  if category == "credentials" then "Environment files, secrets, passwords, or API keys detected"
  else if category == "private_keys" then "Private cryptographic keys or certificates found"
  else if category == "config_files" then "Configuration files that may contain sensitive settings"
  else if category == "database" then "Database files, backups, or SQL dumps discovered"
  else if category == "source_code" then "Source code repository files or version control data"
  else if category == "cloud_config" then "Cloud provider configuration or service account files"
  else if category == "logs" then "Log files that may contain sensitive information"
  else "Potentially sensitive files detected"

/-- One entry of the `findings` list. -/
structure Finding where
  category : String
  severity : String
  count : Nat
  files : List String
  description : String
  deriving DecidableEq, Repr

/-- `ContentAnalyzer._generate_findings` (its `files` argument is unused in
the source as well). -/
def generate_findings (_files sensitive_files : List String) : List Finding :=
  (categorize sensitive_files).map (fun cf =>
    { category := cf.1
      severity := get_category_severity cf.1
      count := cf.2.length
      files := cf.2.take 10
      description := get_category_description cf.1 })

/-- `ContentAnalysisResult` dataclass. -/
structure ContentAnalysisResult where
  bucket_name : String
  total_files : Nat
  sensitive_files : List String
  file_types : List (String × Nat)
  risk_score : Nat
  findings : List Finding
  deriving DecidableEq, Repr

/-- `ContentAnalyzer.analyze`. -/
def analyze (bucket_name : String) (files : List String) : ContentAnalysisResult :=
  if files.isEmpty then
    { bucket_name := bucket_name
      total_files := 0
      sensitive_files := []
      file_types := []
      risk_score := 0
      findings := [] }
  else
    let sensitive := detect_sensitive_files files
    { bucket_name := bucket_name
      total_files := files.length
      sensitive_files := sensitive
      file_types := analyze_file_types files
      risk_score := calculate_risk_score files sensitive
      findings := generate_findings files sensitive }

end ContentAnalyzer

/-! ## PermissionChecker (src/src/workers/permission_checker.py) -/

namespace PermissionChecker

/-- `PermissionType` enum. -/
inductive PermissionType
  | READ | WRITE | LIST | DELETE | READ_ACL | WRITE_ACL
  deriving DecidableEq, Repr

/-- The permission-string mapping block at the top of `analyze_permissions`:
four sequential appends driven by membership tests on the raw strings. -/
def perm_types_of (permissions : List String) : List PermissionType :=
  let t : List PermissionType := []
  let t := if permissions.contains "list" then t ++ [.LIST] else t
  let t := if permissions.contains "read" || permissions.contains "get" then t ++ [.READ] else t
  let t := if permissions.contains "write" || permissions.contains "put" then t ++ [.WRITE] else t
  let t := if permissions.contains "delete" then t ++ [.DELETE] else t
  t

/-- The writability test of `analyze_permissions`. -/
def writable_of (perm_types : List PermissionType) : Bool :=
  [PermissionType.WRITE, PermissionType.DELETE, PermissionType.WRITE_ACL].any
    (fun p => perm_types.contains p)

/-- The sensitive-name list inside `_calculate_risk_level`. -/
def risk_sensitive_patterns : List String :=
  [".env", "secret", "password", "credential", "key", ".pem"]

/-- `PermissionChecker._calculate_risk_level`.  `files_found` is optional in
the source (default `None`); Python truthiness of `None` and `[]` is both
false. -/
def calculate_risk_level (is_public is_writable : Bool)
    (_permissions : List PermissionType) (files_found : Option (List String)) : String :=
  if !is_public then "low"
  else if is_writable then "critical"
  else
    let fs := files_found.getD []
    let truthy := !fs.isEmpty
    if truthy && fs.any (fun f => risk_sensitive_patterns.any (fun p => subStr p (lowerS f))) then
      "high"
    else if truthy && 0 < fs.length then "medium"
    else "medium"

/-- `PermissionChecker._generate_recommendations`. -/
def generate_recommendations (is_public is_writable : Bool) (provider : String)
    (files_found : Option (List String)) : List String :=
  let recs : List String := []
  let recs :=
    if is_public then
      let recs := recs ++ ["Bucket is publicly accessible. Review if this is intentional."]
      if provider == "aws_s3" then
        recs ++ ["Consider enabling AWS S3 Block Public Access settings.",
                 "Review bucket ACL and bucket policies for AllUsers grants."]
      else if provider == "gcp_gcs" then
        recs ++ ["Check IAM policy for 'allUsers' or 'allAuthenticatedUsers' members.",
                 "Consider using signed URLs for temporary access instead."]
      else if provider == "azure_blob" then
        recs ++ ["Change container public access level to 'Private'.",
                 "Use Shared Access Signatures (SAS) for controlled access."]
      else recs
    else recs
  let recs :=
    if is_writable then
      recs ++ ["CRITICAL: Bucket has public write access! This allows anyone to upload/modify files.",
               "Immediately remove public write permissions."]
    else recs
  let fs := files_found.getD []
  let recs :=
    if !fs.isEmpty && 0 < fs.length then
      recs ++ ["Found " ++ toString fs.length ++ " accessible files. Review for sensitive data."]
    else recs
  if recs.isEmpty then ["Bucket appears to be properly secured."] else recs

/-- `PermissionCheckResult` dataclass. -/
structure PermissionCheckResult where
  bucket_name : String
  provider : String
  permissions : List PermissionType
  is_public : Bool
  is_writable : Bool
  risk_level : String
  recommendations : List String
  deriving DecidableEq, Repr

/-- `PermissionChecker.analyze_permissions`. -/
def analyze_permissions (bucket_name provider : String) (permissions : List String)
    (is_public : Bool) (files_found : Option (List String)) : PermissionCheckResult :=
  let perm_types := perm_types_of permissions
  let is_writable := writable_of perm_types
  { bucket_name := bucket_name
    provider := provider
    permissions := perm_types
    is_public := is_public
    is_writable := is_writable
    risk_level := calculate_risk_level is_public is_writable perm_types files_found
    recommendations := generate_recommendations is_public is_writable provider files_found }

end PermissionChecker

/-! ## BaseScanner (src/src/scanner/base_scanner.py) -/

namespace BaseScanner

/-- `BucketAccessLevel` enum. -/
inductive BucketAccessLevel
  | PRIVATE | PUBLIC_READ | PUBLIC_WRITE | PUBLIC_READ_WRITE | AUTHENTICATED_READ | UNKNOWN
  deriving DecidableEq, Repr

/-- `CloudProvider` enum. -/
inductive CloudProvider
  | AWS_S3 | GCP_GCS | AZURE_BLOB
  deriving DecidableEq, Repr

/-- `BucketScanResult` dataclass.  The Python field `exists` is a Lean
keyword, hence `exists_b`; `metadata` is never populated by `scan_bucket`
and is modelled at unit payload type. -/
structure BucketScanResult where
  provider : CloudProvider
  bucket_name : String
  exists_b : Bool
  is_accessible : Bool
  access_level : BucketAccessLevel
  permissions : List String
  url : String
  files_found : Option (List String) := none
  sensitive_files : Option (List String) := none
  error : Option String := none
  metadata : Option Unit := none
  deriving DecidableEq, Repr

/-- The `sensitive_patterns` list of `BaseScanner._detect_sensitive_files`. -/
def sensitive_patterns : List String :=
  [".env", "config", "secret", "password", "credential",
   "token", "key", "private", ".pem", ".key", ".ppk",
   "backup", ".sql", ".db", "database", "admin",
   "wp-config", ".git", ".aws", "id_rsa"]

/-- `BaseScanner._detect_sensitive_files`: keep each file whose lowercased
name contains one of the fixed substrings. -/
def detect_sensitive_files (files : List String) : List String :=
  files.filter (fun file => sensitive_patterns.any (fun p => subStr p (lowerS file)))

/-- Outcomes of the four awaited provider primitives inside one
`scan_bucket` call.  `Except String` models a step that either returns a
value or raises an exception whose message is the string (the composite
method catches every exception at its boundary). -/
structure ScanEnv where
  exists_r : Except String Bool
  access_r : Except String BucketAccessLevel
  perms_r : Except String (List String)
  files_r : Except String (List String)

/-- The result built in the `except` branch of `scan_bucket`. -/
def errorResult (provider : CloudProvider) (bucket_name url msg : String) : BucketScanResult :=
  { provider := provider
    bucket_name := bucket_name
    exists_b := false
    is_accessible := false
    access_level := .UNKNOWN
    permissions := []
    url := url
    error := some msg }

/-- `BaseScanner.scan_bucket`: existence, access level, permissions, optional
listing, with every exception converted to `errorResult` at the boundary.
The canonical URL is a pure input (`_get_bucket_url` is pure string
formatting in all three scanners). -/
def scan_bucket (provider : CloudProvider) (bucket_name url : String)
    (env : ScanEnv) : BucketScanResult :=
  match env.exists_r with
  | .error e => errorResult provider bucket_name url e
  | .ok false =>
      { provider := provider
        bucket_name := bucket_name
        exists_b := false
        is_accessible := false
        access_level := .UNKNOWN
        permissions := []
        url := url
        error := some "Bucket does not exist" }
  | .ok true =>
      match env.access_r with
      | .error e => errorResult provider bucket_name url e
      | .ok access_level =>
          let is_accessible :=
            !([BucketAccessLevel.PRIVATE, BucketAccessLevel.UNKNOWN].contains access_level)
          match env.perms_r with
          | .error e => errorResult provider bucket_name url e
          | .ok permissions =>
              if is_accessible then
                match env.files_r with
                | .error e => errorResult provider bucket_name url e
                | .ok files_found =>
                    { provider := provider
                      bucket_name := bucket_name
                      exists_b := true
                      is_accessible := is_accessible
                      access_level := access_level
                      permissions := permissions
                      url := url
                      files_found := some files_found
                      sensitive_files := some (detect_sensitive_files files_found) }
              else
                { provider := provider
                  bucket_name := bucket_name
                  exists_b := true
                  is_accessible := is_accessible
                  access_level := access_level
                  permissions := permissions
                  url := url
                  files_found := none
                  sensitive_files := none }

end BaseScanner

/-! ## Provider existence checks (aws_scanner.py, gcp_scanner.py, azure_scanner.py) -/

/-- Outcome of the `httpx` HEAD probe: a status code, or any exception
(timeout, DNS failure, connection refused). -/
inductive HeadProbe
  | status (code : Nat)
  | failed
  deriving DecidableEq, Repr

namespace AWSS3Scanner

/-- Outcome of the boto3 `head_bucket` fallback. -/
inductive BotoHead
  | ok
  | clientError (code : String)
  | otherFailure
  deriving DecidableEq, Repr

/-- `AWSS3Scanner.check_bucket_exists`. -/
def check_bucket_exists (head : HeadProbe) (boto : BotoHead) : Bool :=
  match head with
  | .status code => [200, 403, 301].contains code
  | .failed =>
      match boto with
      | .ok => true
      | .clientError code => code == "403"
      | .otherFailure => false

end AWSS3Scanner

namespace GCPStorageScanner

/-- Outcome of the `bucket.reload()` fallback of the GCS client. -/
inductive GcsReload
  | ok
  | notFound
  | forbidden
  | otherFailure
  deriving DecidableEq, Repr

/-- `GCPStorageScanner.check_bucket_exists`. -/
def check_bucket_exists (head : HeadProbe) (native : GcsReload) : Bool :=
  match head with
  | .status code => [200, 403].contains code
  | .failed =>
      match native with
      | .ok => true
      | .notFound => false
      | .forbidden => true
      | .otherFailure => false

end GCPStorageScanner

namespace AzureBlobScanner

/-- Outcome of `get_container_properties` on the Azure client. -/
inductive AzureProps
  | ok
  | resourceNotFound
  | httpResponseError
  | otherFailure
  deriving DecidableEq, Repr

/-- `AzureBlobScanner.check_bucket_exists`; `hasClient` is whether
`blob_service_client` is non-None (anonymous construction leaves it None). -/
def check_bucket_exists (hasClient : Bool) (head : HeadProbe) (native : AzureProps) : Bool :=
  match head with
  | .status code => [200, 403, 409].contains code
  | .failed =>
      if hasClient then
        match native with
        | .ok => true
        | .resourceNotFound => false
        | .httpResponseError => true
        | .otherFailure => false
      else false

end AzureBlobScanner

/-! ## ScanOrchestrator (src/src/scanner/orchestrator.py) -/

namespace ScanOrchestrator

open BaseScanner

/-- Keys of the `scanners` dict in construction order: the constructor always
registers all three providers. -/
def scanner_keys : List CloudProvider := [.AWS_S3, .GCP_GCS, .AZURE_BLOB]

/-- `self.scanners.get(provider)` on the constructed dict. -/
def get_scanner (provider : CloudProvider) : Option Unit :=
  if scanner_keys.contains provider then some () else none

/-- `ScanOrchestrator.scan_bucket`.  `outcome p` is what awaiting scanner
`p`.`scan_bucket` produces: a result, or an exception it let escape.  With a
specific provider the await is not guarded, so an escaped exception
propagates (`Except.error`); with `provider = None` the source gathers with
`return_exceptions=True` and keeps only `BucketScanResult` instances. -/
def scan_bucket (outcome : CloudProvider → Except String BucketScanResult) :
    Option CloudProvider → Except String (List BucketScanResult)
  | some p =>
      match get_scanner p with
      | some _ =>
          match outcome p with
          | .ok r => .ok [r]
          | .error e => .error e
      | none => .ok []
  | none => .ok (scanner_keys.filterMap (fun p => (outcome p).toOption))

end ScanOrchestrator

/-! ## Specification-side definitions

These restate formulas exactly as the specification words them, to be
compared against the embedded code. -/

/-- Spec wording, C2: some listed file whose lowercase name contains one of
.env, secret, password, credential, key, .pem. -/
def specHasSensitiveName (files_found : Option (List String)) : Bool :=
  match files_found with
  | none => false
  | some fs =>
      fs.any (fun f =>
        [".env", "secret", "password", "credential", "key", ".pem"].any
          (fun p => subStr p (lowerS f)))

/-- Spec wording, C1: the size tier of the risk score. -/
def specSizeTier (n : Nat) : Nat :=
  if 1000 < n then 20 else if 100 < n then 15 else if 10 < n then 10 else 5

/-- Spec wording, C1 as amended: the ratio contribution, zero when there are
no sensitive files, otherwise the binary64 evaluation of `int(s / f * 50)`. -/
def specRatioTerm (s n : Nat) : Nat :=
  if s = 0 then 0 else pyRatioTerm s n

/-- Spec wording, C1: number of sensitive files whose lowercase name contains
a high-risk substring. -/
def specHighRiskCount (sensitive : List String) : Nat :=
  (sensitive.filter (fun f =>
    ["password", "secret", ".env", "credential", "private", ".key", ".pem", "id_rsa"].any
      (fun p => subStr p (lowerS f)))).length

/-- Files of one category in the grouped findings dictionary (empty when the
category is absent). -/
def lookupCat (c : String) : List (String × List String) → List String
  | [] => []
  | (c1, fs) :: rest => if c1 == c then fs else lookupCat c rest

/-- Does a file name match the pattern table of at least one category. -/
def anyCatMatch (file : String) : Bool :=
  ContentAnalyzer.SENSITIVE_PATTERNS.any (fun cp => ContentAnalyzer.catMatch cp.2 file)

/-- Concrete 50-file listing: 29 sensitive names with no high-risk substring,
21 names matching nothing. -/
def c1files : List String := List.replicate 29 "token.txt" ++ List.replicate 21 "a.txt"

/-! ## C2: permission risk-level decision table -/

/-- C2: for every input, `analyze_permissions` assigns the risk level by the
top-down decision table — not public gives low; public and writable gives
critical; public with a sensitively named listed file gives high; otherwise
medium. -/
theorem permission_risk_level_decision_table :
    ∀ b prov perms pub files,
      (PermissionChecker.analyze_permissions b prov perms pub files).risk_level =
        if pub = false then "low"
        else if (PermissionChecker.analyze_permissions b prov perms pub files).is_writable then
          "critical"
        else if specHasSensitiveName files then "high"
        else "medium" := by
  intro b prov perms pub files
  simp only [PermissionChecker.analyze_permissions, PermissionChecker.calculate_risk_level,
    specHasSensitiveName]
  cases pub with
  | false => simp
  | true =>
      simp only [Bool.not_true, Bool.false_eq_true, if_false, if_neg]
      cases hw : PermissionChecker.writable_of (PermissionChecker.perm_types_of perms) with
      | true => simp
      | false =>
          simp only [Bool.false_eq_true, if_false]
          cases files with
          | none => simp [PermissionChecker.risk_sensitive_patterns]
          | some fs =>
              cases fs with
              | nil => simp [PermissionChecker.risk_sensitive_patterns]
              | cons f t => simp [PermissionChecker.risk_sensitive_patterns]

/-! ## C10: no ACL permission types, writability characterization -/

/-- C10: `analyze_permissions` never emits READ_ACL or WRITE_ACL, and
`is_writable` holds exactly when the raw permission list contains write, put
or delete. -/
theorem permission_types_no_acl_and_writable_iff :
    ∀ b prov perms pub files,
      ((PermissionChecker.analyze_permissions b prov perms pub files).permissions.contains
          PermissionChecker.PermissionType.READ_ACL = false ∧
        (PermissionChecker.analyze_permissions b prov perms pub files).permissions.contains
          PermissionChecker.PermissionType.WRITE_ACL = false) ∧
      (PermissionChecker.analyze_permissions b prov perms pub files).is_writable =
        ((perms.contains "write" || perms.contains "put") || perms.contains "delete") := by
  intro b prov perms pub files
  simp only [PermissionChecker.analyze_permissions, PermissionChecker.perm_types_of,
    PermissionChecker.writable_of]
  cases h1 : perms.contains "list" <;>
    cases h2 : perms.contains "read" || perms.contains "get" <;>
      cases h3 : perms.contains "write" || perms.contains "put" <;>
        cases h4 : perms.contains "delete" <;>
          simp [h1, h2, h3, h4]

/-! ## C7: provider existence checks -/

/-- C7: each provider existence check is a total decision table over probe
outcomes — the HEAD probe decides by the provider status set (S3 200/403/301,
GCS 200/403, Azure 200/403/409, so a 404 yields false), and on probe failure
the native fallback maps access denied to true, not found to false, and any
residual failure (including a missing Azure client) to false. -/
theorem check_bucket_exists_decision :
    (∀ code boto, AWSS3Scanner.check_bucket_exists (.status code) boto =
        [200, 403, 301].contains code) ∧
    (AWSS3Scanner.check_bucket_exists .failed .ok = true) ∧
    (∀ code, AWSS3Scanner.check_bucket_exists .failed (.clientError code) = (code == "403")) ∧
    (AWSS3Scanner.check_bucket_exists .failed .otherFailure = false) ∧
    (∀ code native, GCPStorageScanner.check_bucket_exists (.status code) native =
        [200, 403].contains code) ∧
    (GCPStorageScanner.check_bucket_exists .failed .ok = true) ∧
    (GCPStorageScanner.check_bucket_exists .failed .notFound = false) ∧
    (GCPStorageScanner.check_bucket_exists .failed .forbidden = true) ∧
    (GCPStorageScanner.check_bucket_exists .failed .otherFailure = false) ∧
    (∀ hasClient code native, AzureBlobScanner.check_bucket_exists hasClient (.status code) native =
        [200, 403, 409].contains code) ∧
    (∀ native, AzureBlobScanner.check_bucket_exists true .failed native =
        (native == .ok || native == .httpResponseError)) ∧
    (∀ native, AzureBlobScanner.check_bucket_exists false .failed native = false) := by
  refine ⟨fun code boto => rfl, rfl, fun code => rfl, rfl, fun code native => rfl, rfl, rfl, rfl,
    rfl, fun hasClient code native => rfl, fun native => ?_, fun native => rfl⟩
  cases native <;> rfl

/-! ## C8: orchestrator fan-out and single-provider dispatch -/

/-- C8: the orchestrator fan-out never raises and returns at most three
results, each coming from a provider whose probe returned a result (raising
probes are excluded); with a specific provider whose probe returns a result
it returns exactly that singleton, and every provider of the closed enum has
a registered scanner, so the unknown-provider empty branch is unreachable. -/
theorem orchestrator_scan_bucket_partial_results :
    (∀ outcome, ∃ rs, ScanOrchestrator.scan_bucket outcome none = .ok rs ∧ rs.length ≤ 3 ∧
        ∀ r ∈ rs, ∃ p ∈ ScanOrchestrator.scanner_keys, outcome p = .ok r) ∧
    (∀ outcome p r, outcome p = .ok r →
        ScanOrchestrator.scan_bucket outcome (some p) = .ok [r]) ∧
    (∀ p, ScanOrchestrator.get_scanner p = some ()) := by
  refine ⟨fun outcome => ?_, fun outcome p r h => ?_, fun p => by cases p <;> rfl⟩
  · refine ⟨_, rfl, ?_, ?_⟩
    · exact le_trans (List.length_filterMap_le _ _) (by decide)
    · intro r hr
      rcases List.mem_filterMap.mp hr with ⟨p, hp, hsome⟩
      refine ⟨p, hp, ?_⟩
      cases h : outcome p with
      | ok a => rw [h] at hsome; cases hsome; rfl
      | error e => rw [h] at hsome; cases hsome
  · have hs : ScanOrchestrator.get_scanner p = some () := by cases p <;> rfl
    simp [ScanOrchestrator.scan_bucket, hs, h]

/-- Witness for C8: the single-provider branch at a concrete outcome map. -/
theorem orchestrator_scan_bucket_witness :
    ScanOrchestrator.scan_bucket
      (fun _ => .ok (BaseScanner.errorResult .AWS_S3 "b" "u" "down"))
      (some .AWS_S3) = .ok [BaseScanner.errorResult .AWS_S3 "b" "u" "down"] :=
  orchestrator_scan_bucket_partial_results.2.1
    (fun _ => .ok (BaseScanner.errorResult .AWS_S3 "b" "u" "down")) .AWS_S3
    (BaseScanner.errorResult .AWS_S3 "b" "u" "down") rfl

/-! ## C3: scan_bucket exception boundary and zero fields -/

/-- C3: an exception in any of the four steps is converted at the
`scan_bucket` boundary into the error result carrying its message, and every
result with `exists_b = false` has all other signal fields at their
zero/empty value (accessibility false, permissions empty, no file lists,
access level unknown). -/
theorem scan_bucket_error_boundary :
    (∀ p b u e a pr fl, BaseScanner.scan_bucket p b u ⟨.error e, a, pr, fl⟩ =
        BaseScanner.errorResult p b u e) ∧
    (∀ p b u e pr fl, BaseScanner.scan_bucket p b u ⟨.ok true, .error e, pr, fl⟩ =
        BaseScanner.errorResult p b u e) ∧
    (∀ p b u lvl e fl, BaseScanner.scan_bucket p b u ⟨.ok true, .ok lvl, .error e, fl⟩ =
        BaseScanner.errorResult p b u e) ∧
    (∀ p b u lvl pr e,
        [BaseScanner.BucketAccessLevel.PRIVATE, .UNKNOWN].contains lvl = false →
        BaseScanner.scan_bucket p b u ⟨.ok true, .ok lvl, .ok pr, .error e⟩ =
          BaseScanner.errorResult p b u e) ∧
    (∀ p b u env, (BaseScanner.scan_bucket p b u env).exists_b = false →
        (BaseScanner.scan_bucket p b u env).is_accessible = false ∧
        (BaseScanner.scan_bucket p b u env).permissions = [] ∧
        (BaseScanner.scan_bucket p b u env).files_found = none ∧
        (BaseScanner.scan_bucket p b u env).sensitive_files = none ∧
        (BaseScanner.scan_bucket p b u env).access_level = .UNKNOWN) := by
  refine ⟨fun p b u e a pr fl => rfl, fun p b u e pr fl => rfl, fun p b u lvl e fl => rfl,
    fun p b u lvl pr e h => ?_, fun p b u env h => ?_⟩
  · cases lvl <;> first | rfl | exact Bool.noConfusion h
  · obtain ⟨er, ar, pr, fr⟩ := env
    cases er with
    | error e => exact ⟨rfl, rfl, rfl, rfl, rfl⟩
    | ok tv =>
        cases tv with
        | false => exact ⟨rfl, rfl, rfl, rfl, rfl⟩
        | true =>
            cases ar with
            | error e => exact ⟨rfl, rfl, rfl, rfl, rfl⟩
            | ok lvl =>
                cases pr with
                | error e => exact ⟨rfl, rfl, rfl, rfl, rfl⟩
                | ok perms =>
                    cases fr with
                    | error e =>
                        cases lvl <;>
                          first
                            | exact ⟨rfl, rfl, rfl, rfl, rfl⟩
                            | exact Bool.noConfusion h
                    | ok files => cases lvl <;> exact Bool.noConfusion h

/-- Witness for C3: a listing-step exception at an accessible level is caught
at the boundary, and the invariant holds at a concrete error environment. -/
theorem scan_bucket_error_boundary_witness :
    ([BaseScanner.BucketAccessLevel.PRIVATE, .UNKNOWN].contains .PUBLIC_READ = false ∧
      BaseScanner.scan_bucket .AWS_S3 "b" "u" ⟨.ok true, .ok .PUBLIC_READ, .ok ["list"], .error "timeout"⟩ =
        BaseScanner.errorResult .AWS_S3 "b" "u" "timeout") ∧
    ((BaseScanner.scan_bucket .AWS_S3 "b" "u" ⟨.error "dns failure", .ok .UNKNOWN, .ok [], .ok []⟩).exists_b = false ∧
      (BaseScanner.scan_bucket .AWS_S3 "b" "u" ⟨.error "dns failure", .ok .UNKNOWN, .ok [], .ok []⟩).permissions = []) :=
  ⟨⟨by decide,
      scan_bucket_error_boundary.2.2.2.1 .AWS_S3 "b" "u" .PUBLIC_READ ["list"] "timeout" (by decide)⟩,
    ⟨(scan_bucket_error_boundary.2.2.2.2 .AWS_S3 "b" "u" ⟨.error "dns failure", .ok .UNKNOWN, .ok [], .ok []⟩ rfl).1.symm ▸ rfl,
      (scan_bucket_error_boundary.2.2.2.2 .AWS_S3 "b" "u" ⟨.error "dns failure", .ok .UNKNOWN, .ok [], .ok []⟩ rfl).2.1⟩⟩

/-! ## C9: merely-nonexistent buckets -/

/-- C9 counterexample: a bucket whose existence check returns false yields a
result with `exists_b = false` and an error string attached, contradicting
the claim that no error is reported for merely-nonexistent buckets. -/
theorem nonexistent_bucket_error_counterexample :
    (BaseScanner.scan_bucket .AWS_S3 "nosuchbucket" "https://nosuchbucket.s3.amazonaws.com"
        ⟨.ok false, .ok .UNKNOWN, .ok [], .ok []⟩).exists_b = false ∧
    (BaseScanner.scan_bucket .AWS_S3 "nosuchbucket" "https://nosuchbucket.s3.amazonaws.com"
        ⟨.ok false, .ok .UNKNOWN, .ok [], .ok []⟩).error ≠ none ∧
    (BaseScanner.scan_bucket .AWS_S3 "nosuchbucket" "https://nosuchbucket.s3.amazonaws.com"
        ⟨.ok false, .ok .UNKNOWN, .ok [], .ok []⟩).error = some "Bucket does not exist" := by
  refine ⟨rfl, ?_, rfl⟩
  decide

/-- C9 as amended: when the existence check returns false, `scan_bucket`
returns (never raises) a result with `exists_b = false` and zero signal
fields, but with the fixed string in the error field rather than no error. -/
theorem nonexistent_bucket_scan_result :
    ∀ p b u a pr fl, BaseScanner.scan_bucket p b u ⟨.ok false, a, pr, fl⟩ =
      { provider := p
        bucket_name := b
        exists_b := false
        is_accessible := false
        access_level := .UNKNOWN
        permissions := []
        url := u
        error := some "Bucket does not exist" } := by
  intro p b u a pr fl
  rfl

/-! ## C6: shape of the detected sensitive-file list -/

/-- Processing one file either leaves the accumulator unchanged or appends
exactly that file once. -/
theorem detectCats_acc_or (file : String) :
    ∀ cats acc, ContentAnalyzer.detectCats file cats acc = acc ∨
      ContentAnalyzer.detectCats file cats acc = acc ++ [file] := by
  intro cats
  induction cats with
  | nil => exact fun acc => Or.inl rfl
  | cons cp rest ih =>
      intro acc
      obtain ⟨c, pats⟩ := cp
      simp only [ContentAnalyzer.detectCats]
      cases hm : ContentAnalyzer.catMatch pats file with
      | true =>
          have hc : (acc ++ [file]).contains file = true := by simp [List.elem_iff]
          simp [hc]
      | false =>
          simp only [Bool.false_eq_true, if_false]
          cases hc : acc.contains file with
          | true => simp
          | false =>
              simp only [Bool.false_eq_true, if_false]
              exact ih acc

/-- The detection fold only ever appends processed files, in encounter order:
its result is the accumulator followed by a sublist of the processed files. -/
theorem detect_foldl_sublist :
    ∀ (files : List String) (acc : List String),
      ∃ t, files.foldl (fun a file => ContentAnalyzer.detectCats file ContentAnalyzer.SENSITIVE_PATTERNS a) acc =
          acc ++ t ∧ t.Sublist files := by
  intro files
  induction files with
  | nil => exact fun acc => ⟨[], by simp, List.Sublist.refl []⟩
  | cons f fs ih =>
      intro acc
      simp only [List.foldl_cons]
      rcases detectCats_acc_or f ContentAnalyzer.SENSITIVE_PATTERNS acc with h | h
      · rcases ih acc with ⟨t, ht, hsub⟩
        exact ⟨t, by rw [h]; exact ht, hsub.cons f⟩
      · rcases ih (acc ++ [f]) with ⟨t, ht, hsub⟩
        refine ⟨f :: t, ?_, hsub.cons₂ f⟩
        rw [h, ht]
        simp

/-- C6 counterexample: on an input list containing the same sensitive name
twice, `_detect_sensitive_files` returns that name twice, so the claimed
no-duplicates property fails for inputs with repeated names. -/
theorem sensitive_files_duplicate_counterexample :
    ContentAnalyzer.detect_sensitive_files [".env", ".env"] = [".env", ".env"] ∧
    ¬ (ContentAnalyzer.detect_sensitive_files [".env", ".env"]).Nodup := by
  refine ⟨by decide, ?_⟩
  decide

/-- C6 as amended: the sensitive files of ContentAnalyzer are always a
sublist of the input (hence a subset, in input order, with multiplicity never
above the input); they are duplicate-free whenever the input is; and in every
scan result of the base scanner holding both lists, the sensitive files are a
sublist of the files found. -/
theorem sensitive_files_sublist_of_input :
    (∀ files, (ContentAnalyzer.detect_sensitive_files files).Sublist files) ∧
    (∀ files, files.Nodup → (ContentAnalyzer.detect_sensitive_files files).Nodup) ∧
    (∀ p b u env fs ss,
        (BaseScanner.scan_bucket p b u env).files_found = some fs →
        (BaseScanner.scan_bucket p b u env).sensitive_files = some ss →
        ss.Sublist fs) := by
  have hsub : ∀ files, (ContentAnalyzer.detect_sensitive_files files).Sublist files := by
    intro files
    rcases detect_foldl_sublist files [] with ⟨t, ht, hs⟩
    simpa [ContentAnalyzer.detect_sensitive_files, ht] using hs
  refine ⟨hsub, fun files hnd => (hsub files).nodup hnd, ?_⟩
  intro p b u env fs ss hf hs
  obtain ⟨er, ar, pr, fr⟩ := env
  cases er with
  | error e => cases hf
  | ok tv =>
      cases tv with
      | false => cases hf
      | true =>
          cases ar with
          | error e => cases hf
          | ok lvl =>
              cases pr with
              | error e => cases hf
              | ok perms =>
                  cases fr with
                  | error e => cases lvl <;> exact Option.noConfusion hf
                  | ok files =>
                      cases lvl <;>
                        first
                          | exact Option.noConfusion hf
                          | (cases hf; cases hs; exact List.filter_sublist _)

/-- Witness for C6: the duplicate-freeness part at a concrete duplicate-free
input. -/
theorem sensitive_files_sublist_witness :
    ([".env", "readme.txt"] : List String).Nodup ∧
    (ContentAnalyzer.detect_sensitive_files [".env", "readme.txt"]).Nodup :=
  ⟨by decide, sensitive_files_sublist_of_input.2.1 [".env", "readme.txt"] (by decide)⟩

/-! ## C4: findings group files under every matching category -/

/-- Appending a file under a category key extends exactly that bucket. -/
theorem lookupCat_addCat_self (c file : String) :
    ∀ m, lookupCat c (ContentAnalyzer.addCat c file m) = lookupCat c m ++ [file] := by
  intro m
  induction m with
  | nil => simp [ContentAnalyzer.addCat, lookupCat]
  | cons kv rest ih =>
      obtain ⟨c1, fs⟩ := kv
      simp only [ContentAnalyzer.addCat]
      cases h : c1 == c with
      | true => simp [lookupCat, h]
      | false => simp [lookupCat, h, ih]

/-- Appending a file under a different key leaves a bucket unchanged. -/
theorem lookupCat_addCat_ne (c c1 file : String) (h : (c1 == c) = false) :
    ∀ m, lookupCat c (ContentAnalyzer.addCat c1 file m) = lookupCat c m := by
  intro m
  induction m with
  | nil => simp [ContentAnalyzer.addCat, lookupCat, h]
  | cons kv rest ih =>
      obtain ⟨c2, fs⟩ := kv
      simp only [ContentAnalyzer.addCat]
      cases h2 : c2 == c1 with
      | true =>
          have : c2 = c1 := by simpa using h2
          subst this
          simp [lookupCat, h]
      | false => simp [lookupCat, h2, ih]

/-- A category-table walk whose keys avoid `c` leaves bucket `c` unchanged. -/
theorem catFold_lookup_of_not_mem (c file : String) :
    ∀ (cats : List (String × List ContentAnalyzer.Pat)) m,
      (∀ k ∈ cats.map Prod.fst, (k == c) = false) →
      lookupCat c (cats.foldl
          (fun m1 cp => if ContentAnalyzer.catMatch cp.2 file then ContentAnalyzer.addCat cp.1 file m1 else m1) m) =
        lookupCat c m := by
  intro cats
  induction cats with
  | nil => intro m _; rfl
  | cons cp rest ih =>
      intro m hk
      obtain ⟨c0, p0⟩ := cp
      simp only [List.foldl_cons]
      have h0 : (c0 == c) = false := hk c0 (by simp)
      have hrest : ∀ k ∈ rest.map Prod.fst, (k == c) = false := fun k hkm =>
        hk k (by simp [hkm])
      rw [ih _ hrest]
      cases hm : ContentAnalyzer.catMatch p0 file <;>
        simp [hm, lookupCat_addCat_ne c c0 file h0]

/-- Walking the category table for one file appends the file to exactly the
buckets of the categories whose pattern table it matches. -/
theorem catFold_lookup (c file : String) (pats : List ContentAnalyzer.Pat) :
    ∀ (cats : List (String × List ContentAnalyzer.Pat)) m,
      (cats.map Prod.fst).Nodup → (c, pats) ∈ cats →
      lookupCat c (cats.foldl
          (fun m1 cp => if ContentAnalyzer.catMatch cp.2 file then ContentAnalyzer.addCat cp.1 file m1 else m1) m) =
        lookupCat c m ++ (if ContentAnalyzer.catMatch pats file then [file] else []) := by
  intro cats
  induction cats with
  | nil => intro m _ hmem; cases hmem
  | cons cp rest ih =>
      intro m hnd hmem
      obtain ⟨c0, p0⟩ := cp
      simp only [List.map_cons, List.nodup_cons] at hnd
      obtain ⟨hc0, hndr⟩ := hnd
      simp only [List.foldl_cons]
      rcases List.mem_cons.mp hmem with heq | htail
      · injection heq with hc hp
        subst hc
        subst hp
        have hrest : ∀ k ∈ rest.map Prod.fst, (k == c) = false := by
          intro k hkm
          have hne : k ≠ c := fun hkc => hc0 (hkc ▸ hkm)
          simpa using hne
        rw [catFold_lookup_of_not_mem c file rest _ hrest]
        cases hm : ContentAnalyzer.catMatch pats file <;>
          simp [hm, lookupCat_addCat_self]
      · have hcmem : c ∈ rest.map Prod.fst := List.mem_map_of_mem Prod.fst htail
        have h0 : (c0 == c) = false := by
          have hne : c0 ≠ c := fun hcc => hc0 (hcc ▸ hcmem)
          simpa using hne
        rw [ih _ hndr htail]
        cases hm : ContentAnalyzer.catMatch p0 file <;>
          simp [hm, lookupCat_addCat_ne c c0 file h0]

/-- Bucket contents of a category after the full grouping pass: exactly the
sensitive files matching that category, in encounter order. -/
theorem categorize_lookup (c : String) (pats : List ContentAnalyzer.Pat)
    (hmem : (c, pats) ∈ ContentAnalyzer.SENSITIVE_PATTERNS) :
    ∀ (sensitive : List String) (acc : List (String × List String)),
      lookupCat c (sensitive.foldl
          (fun m file => ContentAnalyzer.SENSITIVE_PATTERNS.foldl
            (fun m1 cp => if ContentAnalyzer.catMatch cp.2 file then ContentAnalyzer.addCat cp.1 file m1 else m1) m)
          acc) =
        lookupCat c acc ++ sensitive.filter (fun f => ContentAnalyzer.catMatch pats f) := by
  have hnd : (ContentAnalyzer.SENSITIVE_PATTERNS.map Prod.fst).Nodup := by decide
  intro sensitive
  induction sensitive with
  | nil => intro acc; simp
  | cons f t ih =>
      intro acc
      simp only [List.foldl_cons]
      rw [ih, catFold_lookup c f pats ContentAnalyzer.SENSITIVE_PATTERNS acc hnd hmem,
        List.filter_cons]
      cases hm : ContentAnalyzer.catMatch pats f <;> simp [hm]

/-- Files already collected stay collected while later files are processed. -/
theorem mem_detectCats_of_mem (file f : String)
    (cats : List (String × List ContentAnalyzer.Pat)) (acc : List String) (h : f ∈ acc) :
    f ∈ ContentAnalyzer.detectCats file cats acc := by
  rcases detectCats_acc_or file cats acc with he | he
  · rw [he]; exact h
  · rw [he]; exact List.mem_append_left _ h

/-- A file matching some category of the table ends up in the accumulator. -/
theorem mem_detectCats_self (f : String) :
    ∀ (cats : List (String × List ContentAnalyzer.Pat)) (acc : List String),
      (∃ cp ∈ cats, ContentAnalyzer.catMatch cp.2 f = true) →
      f ∈ ContentAnalyzer.detectCats f cats acc := by
  intro cats
  induction cats with
  | nil => intro acc h; rcases h with ⟨cp, hcp, _⟩; cases hcp
  | cons cp rest ih =>
      intro acc h
      obtain ⟨c0, p0⟩ := cp
      simp only [ContentAnalyzer.detectCats]
      cases hm : ContentAnalyzer.catMatch p0 f with
      | true =>
          have hc : (acc ++ [f]).contains f = true := by simp [List.elem_iff]
          simp [hc]
      | false =>
          simp only [Bool.false_eq_true, if_false]
          cases hc : acc.contains f with
          | true =>
              simp only [if_true]
              exact (List.elem_iff.mp hc)
          | false =>
              simp only [Bool.false_eq_true, if_false]
              refine ih acc ?_
              rcases h with ⟨cp1, hcp1, hcm1⟩
              rcases List.mem_cons.mp hcp1 with heq | htail
              · rw [heq] at hcm1
                simp only at hcm1
                rw [hcm1] at hm
                cases hm
              · exact ⟨cp1, htail, hcm1⟩

/-- Membership in the accumulator survives folding the detection over more
files. -/
theorem mem_detect_foldl_of_mem (f : String) :
    ∀ (files acc : List String), f ∈ acc →
      f ∈ files.foldl (fun a file => ContentAnalyzer.detectCats file ContentAnalyzer.SENSITIVE_PATTERNS a) acc := by
  intro files
  induction files with
  | nil => exact fun acc h => h
  | cons f0 t ih =>
      intro acc h
      simp only [List.foldl_cons]
      exact ih _ (mem_detectCats_of_mem f0 f _ acc h)

/-- C4 counterexample: the single file `secret.key` matches both the
credentials table (substring `secret`) and the private-keys table (suffix
`.key`), and the findings of `analyze` list it under both categories — two
findings entries each containing the file — refuting the claim that each
matched file is grouped under exactly one category. -/
theorem findings_multicategory_counterexample :
    ((ContentAnalyzer.analyze "b" ["secret.key"]).findings.map
        (fun fd => fd.category)) = ["credentials", "private_keys"] ∧
    ((ContentAnalyzer.analyze "b" ["secret.key"]).findings.countP
        (fun fd => fd.files.contains "secret.key")) = 2 := by
  constructor
  · decide
  · decide

/-- C4 as amended: the grouping loop of `_generate_findings` places each
sensitive file under every category whose pattern table it matches (first
category does not win; the bucket of a category is exactly the matching
files in order), while a file matching any category at all appears in the
flat sensitive list of `_detect_sensitive_files`. -/
theorem findings_group_by_every_matching_category :
    (∀ (sensitive : List String) (c : String) (pats : List ContentAnalyzer.Pat),
        (c, pats) ∈ ContentAnalyzer.SENSITIVE_PATTERNS →
        lookupCat c (ContentAnalyzer.categorize sensitive) =
          sensitive.filter (fun f => ContentAnalyzer.catMatch pats f)) ∧
    (∀ (files : List String) (f : String), f ∈ files → anyCatMatch f = true →
        f ∈ ContentAnalyzer.detect_sensitive_files files) := by
  constructor
  · intro sensitive c pats hmem
    have h := categorize_lookup c pats hmem sensitive []
    simpa [ContentAnalyzer.categorize, lookupCat] using h
  · have main : ∀ (files acc : List String) (f : String), f ∈ files → anyCatMatch f = true →
        f ∈ files.foldl (fun a file => ContentAnalyzer.detectCats file ContentAnalyzer.SENSITIVE_PATTERNS a) acc := by
      intro files
      induction files with
      | nil => intro acc f h; cases h
      | cons f0 t ih =>
          intro acc f h hmatch
          simp only [List.foldl_cons]
          rcases List.mem_cons.mp h with heq | htail
          · subst heq
            refine mem_detect_foldl_of_mem f t _ ?_
            refine mem_detectCats_self f ContentAnalyzer.SENSITIVE_PATTERNS acc ?_
            simpa [anyCatMatch, List.any_eq_true] using hmatch
          · exact ih _ f htail hmatch
    exact fun files f hf hm => main files [] f hf hm

/-- Witness for C4: the logs bucket of a concrete grouping, and a concrete
matching file landing in the flat sensitive list. -/
theorem findings_group_witness :
    (lookupCat "logs" (ContentAnalyzer.categorize ["app.log", "readme.txt"]) =
      ["app.log", "readme.txt"].filter
        (fun f => ContentAnalyzer.catMatch
          [ .endAny [".log"], .hasAny ["access_log"], .hasAny ["error_log"],
            .hasAny ["debug."], .hasAny ["trace."] ] f)) ∧
    "x.pem" ∈ ContentAnalyzer.detect_sensitive_files ["x.pem"] :=
  ⟨findings_group_by_every_matching_category.1 ["app.log", "readme.txt"] "logs"
      [ .endAny [".log"], .hasAny ["access_log"], .hasAny ["error_log"],
        .hasAny ["debug."], .hasAny ["trace."] ] (by decide),
    findings_group_by_every_matching_category.2 ["x.pem"] "x.pem" (by decide) (by decide)⟩

/-! ## C1 and C5: lemmas on the binary64 model -/

/-- The fuel-based logarithm agrees with the library logarithm once the fuel
covers the argument. -/
theorem log2F_eq : ∀ (fuel n : Nat), n ≤ fuel → log2F fuel n = Nat.log2 n := by
  intro fuel
  induction fuel with
  | zero =>
      intro n hn
      have : n = 0 := Nat.le_zero.mp hn
      subst this
      rw [Nat.log2]
      rfl
  | succ fuel ih =>
      intro n hn
      show (if 2 ≤ n then log2F fuel (n / 2) + 1 else 0) = Nat.log2 n
      rw [Nat.log2]
      by_cases h : 2 ≤ n
      · have hlt : n / 2 ≤ fuel := by
          have := Nat.div_lt_self (by omega : 0 < n) (by omega : 1 < 2)
          omega
        simp [h, ih _ hlt]
      · simp [h]

/-- `log2N` is the library binary logarithm. -/
theorem log2N_eq (n : Nat) : log2N n = Nat.log2 n := log2F_eq n n le_rfl

/-- Cast of a natural power of two as an integer power in ℚ. -/
theorem q_pow_nat (k : ℕ) : ((2 ^ k : ℕ) : ℚ) = (2 : ℚ) ^ (k : ℤ) := by
  rw [zpow_natCast]; norm_cast

/-- The computed `ilogR a b` is the floor of the binary logarithm of a / b:
the value lies in the binade `[2 ^ ilogR, 2 ^ (ilogR + 1))`. -/
theorem ilogR_char (a b : Nat) (ha : 1 ≤ a) (hb : 1 ≤ b) :
    (2 : ℚ) ^ ilogR a b ≤ (a : ℚ) / (b : ℚ) ∧
      (a : ℚ) / (b : ℚ) < (2 : ℚ) ^ (ilogR a b + 1) := by
  have hb0 : (0 : ℚ) < (b : ℚ) := by exact_mod_cast hb
  have hA1 : (2 : ℚ) ^ ((log2N a : ℕ) : ℤ) ≤ (a : ℚ) := by
    rw [← q_pow_nat]
    exact_mod_cast (log2N_eq a ▸ Nat.log2_self_le (by omega))
  have hA2 : (a : ℚ) < (2 : ℚ) ^ (((log2N a : ℕ) : ℤ) + 1) := by
    have h1 : a < 2 ^ (log2N a + 1) := log2N_eq a ▸ Nat.lt_log2_self
    have h2 : ((2 ^ (log2N a + 1) : ℕ) : ℚ) = (2 : ℚ) ^ (((log2N a : ℕ) : ℤ) + 1) := by
      rw [q_pow_nat]; congr 1
    calc (a : ℚ) < ((2 ^ (log2N a + 1) : ℕ) : ℚ) := by exact_mod_cast h1
      _ = _ := h2
  have hB1 : (2 : ℚ) ^ ((log2N b : ℕ) : ℤ) ≤ (b : ℚ) := by
    rw [← q_pow_nat]
    exact_mod_cast (log2N_eq b ▸ Nat.log2_self_le (by omega))
  have hB2 : (b : ℚ) < (2 : ℚ) ^ (((log2N b : ℕ) : ℤ) + 1) := by
    have h1 : b < 2 ^ (log2N b + 1) := log2N_eq b ▸ Nat.lt_log2_self
    have h2 : ((2 ^ (log2N b + 1) : ℕ) : ℚ) = (2 : ℚ) ^ (((log2N b : ℕ) : ℤ) + 1) := by
      rw [q_pow_nat]; congr 1
    calc (b : ℚ) < ((2 ^ (log2N b + 1) : ℕ) : ℚ) := by exact_mod_cast h1
      _ = _ := h2
  set c : ℤ := (log2N a : ℤ) - (log2N b : ℤ) with hc
  have hup : (a : ℚ) / b < (2 : ℚ) ^ (c + 1) := by
    rw [div_lt_iff₀ hb0]
    calc (a : ℚ) < (2 : ℚ) ^ (((log2N a : ℕ) : ℤ) + 1) := hA2
      _ = (2 : ℚ) ^ (c + 1) * (2 : ℚ) ^ ((log2N b : ℕ) : ℤ) := by
          rw [← zpow_add₀ (two_ne_zero)]
          congr 1
          omega
      _ ≤ (2 : ℚ) ^ (c + 1) * b :=
          mul_le_mul_of_nonneg_left hB1 (le_of_lt (zpow_pos two_pos _))
  have hlow : (2 : ℚ) ^ (c - 1) ≤ (a : ℚ) / b := by
    rw [le_div_iff₀ hb0]
    calc (2 : ℚ) ^ (c - 1) * b ≤ (2 : ℚ) ^ (c - 1) * (2 : ℚ) ^ (((log2N b : ℕ) : ℤ) + 1) :=
          mul_le_mul_of_nonneg_left (le_of_lt hB2) (le_of_lt (zpow_pos two_pos _))
      _ = (2 : ℚ) ^ ((log2N a : ℕ) : ℤ) := by
          rw [← zpow_add₀ (two_ne_zero)]
          congr 1
          omega
      _ ≤ (a : ℚ) := hA1
  have hiff : (b * 2 ^ c.toNat ≤ a * 2 ^ (-c).toNat) ↔ (2 : ℚ) ^ c ≤ (a : ℚ) / b := by
    rw [le_div_iff₀ hb0]
    constructor
    · intro h
      have hq : (b : ℚ) * (2 : ℚ) ^ (c.toNat : ℤ) ≤ (a : ℚ) * (2 : ℚ) ^ ((-c).toNat : ℤ) := by
        rw [← q_pow_nat, ← q_pow_nat]
        exact_mod_cast h
      have hsplit : (2 : ℚ) ^ c * (2 : ℚ) ^ ((-c).toNat : ℤ) = (2 : ℚ) ^ (c.toNat : ℤ) := by
        rw [← zpow_add₀ (two_ne_zero)]
        congr 1
        have := Int.toNat_sub_toNat_neg c
        omega
      have hpos : (0 : ℚ) < (2 : ℚ) ^ ((-c).toNat : ℤ) := zpow_pos two_pos _
      nlinarith [hq, hsplit, hpos]
    · intro h
      have hq : (b : ℚ) * (2 : ℚ) ^ (c.toNat : ℤ) ≤ (a : ℚ) * (2 : ℚ) ^ ((-c).toNat : ℤ) := by
        have hsplit : (2 : ℚ) ^ c * (2 : ℚ) ^ ((-c).toNat : ℤ) = (2 : ℚ) ^ (c.toNat : ℤ) := by
          rw [← zpow_add₀ (two_ne_zero)]
          congr 1
          have := Int.toNat_sub_toNat_neg c
          omega
        have hpos : (0 : ℚ) ≤ (2 : ℚ) ^ ((-c).toNat : ℤ) := le_of_lt (zpow_pos two_pos _)
        calc (b : ℚ) * (2 : ℚ) ^ (c.toNat : ℤ) = ((2 : ℚ) ^ c * b) * (2 : ℚ) ^ ((-c).toNat : ℤ) := by
              rw [mul_comm ((2 : ℚ) ^ c) (b : ℚ), mul_assoc, hsplit]
          _ ≤ (a : ℚ) * (2 : ℚ) ^ ((-c).toNat : ℤ) := mul_le_mul_of_nonneg_right h hpos
      rw [← q_pow_nat, ← q_pow_nat] at hq
      exact_mod_cast hq
  show (2 : ℚ) ^ (if b * 2 ^ c.toNat ≤ a * 2 ^ (-c).toNat then c else c - 1) ≤ (a : ℚ) / b ∧
    (a : ℚ) / b < (2 : ℚ) ^ ((if b * 2 ^ c.toNat ≤ a * 2 ^ (-c).toNat then c else c - 1) + 1)
  by_cases hbr : b * 2 ^ c.toNat ≤ a * 2 ^ (-c).toNat
  · rw [if_pos hbr]
    exact ⟨hiff.mp hbr, hup⟩
  · rw [if_neg hbr]
    refine ⟨by simpa using hlow, ?_⟩
    have : ¬ (2 : ℚ) ^ c ≤ (a : ℚ) / b := fun hcon => hbr (hiff.mpr hcon)
    have h2 : (a : ℚ) / b < (2 : ℚ) ^ c := lt_of_not_le this
    simpa using h2

/-- `ilogR` is monotone in the value of the fraction. -/
theorem ilogR_mono (a1 b1 a2 b2 : Nat) (ha1 : 1 ≤ a1) (hb1 : 1 ≤ b1)
    (ha2 : 1 ≤ a2) (hb2 : 1 ≤ b2) (hq : (a1 : ℚ) / b1 ≤ (a2 : ℚ) / b2) :
    ilogR a1 b1 ≤ ilogR a2 b2 := by
  have c1 := ilogR_char a1 b1 ha1 hb1
  have c2 := ilogR_char a2 b2 ha2 hb2
  have hlt : (2 : ℚ) ^ ilogR a1 b1 < (2 : ℚ) ^ (ilogR a2 b2 + 1) :=
    lt_of_le_of_lt (c1.1.trans hq) c2.2
  have := (zpow_lt_zpow_iff_right₀ one_lt_two).mp hlt
  omega

/-- Round-to-nearest never goes below the floor. -/
theorem rneInt_ge_floor (q : ℚ) : ⌊q⌋ ≤ rneInt q := by
  unfold rneInt
  split
  · exact le_rfl
  · split
    · omega
    · split <;> omega

/-- Round-to-nearest never exceeds the floor plus one. -/
theorem rneInt_le_floor_add_one (q : ℚ) : rneInt q ≤ ⌊q⌋ + 1 := by
  unfold rneInt
  split
  · omega
  · split
    · omega
    · split <;> omega

/-- Round-to-nearest is within one half above the value. -/
theorem rneInt_le_half (q : ℚ) : (rneInt q : ℚ) ≤ q + 1/2 := by
  have hfl := Int.floor_le q
  unfold rneInt
  split
  · linarith
  · rename_i h1
    push_neg at h1
    split
    · push_cast; linarith
    · split
      · linarith
      · push_cast; linarith

/-- Round-to-nearest is within one half below the value. -/
theorem half_le_rneInt (q : ℚ) : q - 1/2 ≤ (rneInt q : ℚ) := by
  have hfl := Int.lt_floor_add_one q
  unfold rneInt
  split
  · rename_i h1
    linarith
  · rename_i h1
    push_neg at h1
    split
    · push_cast; linarith
    · split
      · linarith
      · push_cast; linarith

/-- Round-to-nearest with ties to even is monotone. -/
theorem rneInt_mono {x y : ℚ} (h : x ≤ y) : rneInt x ≤ rneInt y := by
  have hf := Int.floor_le_floor h
  by_cases hlt : ⌊x⌋ < ⌊y⌋
  · have h1 := rneInt_le_floor_add_one x
    have h2 := rneInt_ge_floor y
    omega
  · have heq : ⌊x⌋ = ⌊y⌋ := le_antisymm hf (not_lt.mp hlt)
    unfold rneInt
    rw [heq]
    split_ifs <;> first | omega | linarith

/-- The integer floor of a quotient of casts is natural division. -/
theorem int_floor_nat_div (a b : ℕ) : ⌊(a : ℚ) / (b : ℚ)⌋ = ((a / b : ℕ) : ℤ) := by
  rw [← Int.natCast_floor_eq_floor (by positivity), Nat.floor_div_eq_div]

/-- The integer rounding `rneDiv` agrees with the rational rounding `rneInt`
on quotients of naturals. -/
theorem rneDiv_cast (a b : ℕ) (hb : 0 < b) : ((rneDiv a b : ℕ) : ℤ) = rneInt ((a : ℚ) / b) := by
  have hb0 : (0 : ℚ) < (b : ℚ) := by exact_mod_cast hb
  have hfl : ⌊(a : ℚ) / b⌋ = ((a / b : ℕ) : ℤ) := int_floor_nat_div a b
  have hfr : (a : ℚ) / b - ((a / b : ℕ) : ℚ) = ((a % b : ℕ) : ℚ) / b := by
    have hmod : (b : ℚ) * ((a / b : ℕ) : ℚ) + ((a % b : ℕ) : ℚ) = (a : ℚ) := by
      exact_mod_cast congrArg (Nat.cast : ℕ → ℚ) (Nat.div_add_mod a b)
    field_simp
    linarith
  have hflq : ((⌊(a : ℚ) / b⌋ : ℤ) : ℚ) = ((a / b : ℕ) : ℚ) := by
    rw [hfl]
    norm_cast
  have hlt_iff : ((a : ℚ) / b - (⌊(a : ℚ) / b⌋ : ℚ) < 1/2) ↔ (2 * (a % b) < b) := by
    rw [hflq, hfr]
    rw [div_lt_iff₀ hb0]
    constructor
    · intro h
      have : (2 : ℚ) * ((a % b : ℕ) : ℚ) < (b : ℚ) := by linarith
      exact_mod_cast this
    · intro h
      have : (2 : ℚ) * ((a % b : ℕ) : ℚ) < (b : ℚ) := by exact_mod_cast h
      linarith
  have hgt_iff : ((1 : ℚ)/2 < (a : ℚ) / b - (⌊(a : ℚ) / b⌋ : ℚ)) ↔ (b < 2 * (a % b)) := by
    rw [hflq, hfr]
    rw [lt_div_iff₀ hb0]
    constructor
    · intro h
      have : (b : ℚ) < 2 * ((a % b : ℕ) : ℚ) := by linarith
      exact_mod_cast this
    · intro h
      have : (b : ℚ) < 2 * ((a % b : ℕ) : ℚ) := by exact_mod_cast h
      linarith
  have hpar : (⌊(a : ℚ) / b⌋ % 2 = 0) ↔ ((a / b) % 2 = 0) := by
    rw [hfl]
    omega
  unfold rneDiv rneInt
  by_cases h1 : 2 * (a % b) < b
  · rw [if_pos h1, if_pos (hlt_iff.mpr h1), hfl]
  · rw [if_neg h1, if_neg (fun hc => h1 (hlt_iff.mp hc))]
    by_cases h2 : b < 2 * (a % b)
    · rw [if_pos h2, if_pos (hgt_iff.mpr h2), hfl]
      push_cast
      ring
    · rw [if_neg h2, if_neg (fun hc => h2 (hgt_iff.mp hc))]
      by_cases h3 : (a / b) % 2 = 0
      · rw [if_pos h3, if_pos (hpar.mpr h3), hfl]
      · rw [if_neg h3, if_neg (fun hc => h3 (hpar.mp hc)), hfl]
        push_cast
        ring

/-- The exponent component of `flDivM`. -/
theorem flDivM_snd (a b : ℕ) : (flDivM a b).2 = ilogR a b - 52 := by
  simp only [flDivM]
  split <;> rfl

/-- The mantissa of `flDivM` is the nearest-even rounding of the scaled
quotient. -/
theorem flDivM_fst_cast (a b : ℕ) (hb : 1 ≤ b) :
    ((flDivM a b).1 : ℤ) = rneInt ((a : ℚ) / b * (2 : ℚ) ^ (-(ilogR a b - 52))) := by
  have hb0 : (0 : ℚ) < (b : ℚ) := by exact_mod_cast hb
  simp only [flDivM]
  split
  · rename_i h
    show ((rneDiv (a * 2 ^ (-(ilogR a b - 52)).toNat) b : ℕ) : ℤ) = _
    rw [rneDiv_cast _ b hb]
    congr 1
    have hk : (((-(ilogR a b - 52)).toNat : ℕ) : ℤ) = -(ilogR a b - 52) :=
      Int.toNat_of_nonneg (by omega)
    push_cast
    rw [← zpow_natCast (2 : ℚ) ((-(ilogR a b - 52)).toNat), hk]
    ring
  · rename_i h
    show ((rneDiv a (b * 2 ^ (ilogR a b - 52).toNat) : ℕ) : ℤ) = _
    have hbpos : 0 < b * 2 ^ (ilogR a b - 52).toNat := by positivity
    rw [rneDiv_cast _ _ hbpos]
    congr 1
    have hk : (((ilogR a b - 52).toNat : ℕ) : ℤ) = ilogR a b - 52 :=
      Int.toNat_of_nonneg (by omega)
    push_cast
    rw [← zpow_natCast (2 : ℚ) ((ilogR a b - 52).toNat), hk, zpow_neg]
    ring

/-- Value form of `flDivM`: nearest-even mantissa times the binade scale. -/
theorem mval_flDivM (a b : ℕ) (hb : 1 ≤ b) :
    mval (flDivM a b) =
      (rneInt ((a : ℚ) / b * (2 : ℚ) ^ (-(ilogR a b - 52))) : ℚ) * (2 : ℚ) ^ (ilogR a b - 52) := by
  unfold mval
  rw [flDivM_snd]
  congr 1
  have h := flDivM_fst_cast a b hb
  exact_mod_cast congrArg (Int.cast : ℤ → ℚ) h

/-- The scaled quotient sits in `[2^52, 2^53)`. -/
theorem scaled_quotient_mem (a b : ℕ) (ha : 1 ≤ a) (hb : 1 ≤ b) :
    (2 : ℚ) ^ (52 : ℤ) ≤ (a : ℚ) / b * (2 : ℚ) ^ (-(ilogR a b - 52)) ∧
      (a : ℚ) / b * (2 : ℚ) ^ (-(ilogR a b - 52)) < (2 : ℚ) ^ (53 : ℤ) := by
  have hchar := ilogR_char a b ha hb
  have hp : (0 : ℚ) < (2 : ℚ) ^ (-(ilogR a b - 52)) := zpow_pos two_pos _
  constructor
  · calc (2 : ℚ) ^ (52 : ℤ) = (2 : ℚ) ^ ilogR a b * (2 : ℚ) ^ (-(ilogR a b - 52)) := by
          rw [← zpow_add₀ (two_ne_zero)]
          congr 1
          omega
      _ ≤ (a : ℚ) / b * (2 : ℚ) ^ (-(ilogR a b - 52)) :=
          mul_le_mul_of_nonneg_right hchar.1 (le_of_lt hp)
  · calc (a : ℚ) / b * (2 : ℚ) ^ (-(ilogR a b - 52)) <
        (2 : ℚ) ^ (ilogR a b + 1) * (2 : ℚ) ^ (-(ilogR a b - 52)) :=
          (mul_lt_mul_of_pos_right hchar.2 hp)
      _ = (2 : ℚ) ^ (53 : ℤ) := by
          rw [← zpow_add₀ (two_ne_zero)]
          congr 1
          omega

/-- Mantissa lower bound. -/
theorem flDivM_fst_lb (a b : ℕ) (ha : 1 ≤ a) (hb : 1 ≤ b) :
    2 ^ 52 ≤ (flDivM a b).1 := by
  have hmem := scaled_quotient_mem a b ha hb
  have hhalf := half_le_rneInt ((a : ℚ) / b * (2 : ℚ) ^ (-(ilogR a b - 52)))
  have hcast := flDivM_fst_cast a b hb
  have hq : ((2 ^ 52 - 1 : ℤ) : ℚ) < (rneInt ((a : ℚ) / b * (2 : ℚ) ^ (-(ilogR a b - 52))) : ℚ) := by
    have h52 : ((2 ^ 52 - 1 : ℤ) : ℚ) < (2 : ℚ) ^ (52 : ℤ) - 1/2 := by
      push_cast
      rw [show ((52 : ℤ)) = ((52 : ℕ) : ℤ) from rfl, zpow_natCast]
      norm_num
    linarith [hmem.1]
  have hZ : (2 ^ 52 - 1 : ℤ) < ((flDivM a b).1 : ℤ) := by
    rw [hcast]
    exact_mod_cast hq
  have : (2 ^ 52 - 1 : ℤ) < ((flDivM a b).1 : ℤ) := hZ
  omega

/-- Mantissa upper bound. -/
theorem flDivM_fst_ub (a b : ℕ) (ha : 1 ≤ a) (hb : 1 ≤ b) :
    (flDivM a b).1 ≤ 2 ^ 53 := by
  have hmem := scaled_quotient_mem a b ha hb
  have hhalf := rneInt_le_half ((a : ℚ) / b * (2 : ℚ) ^ (-(ilogR a b - 52)))
  have hcast := flDivM_fst_cast a b hb
  have hq : (rneInt ((a : ℚ) / b * (2 : ℚ) ^ (-(ilogR a b - 52))) : ℚ) < ((2 ^ 53 + 1 : ℤ) : ℚ) := by
    have h53 : (2 : ℚ) ^ (53 : ℤ) + 1/2 < ((2 ^ 53 + 1 : ℤ) : ℚ) := by
      push_cast
      rw [show ((53 : ℤ)) = ((53 : ℕ) : ℤ) from rfl, zpow_natCast]
      norm_num
    linarith [hmem.2]
  have hZ : ((flDivM a b).1 : ℤ) < (2 ^ 53 + 1 : ℤ) := by
    rw [hcast]
    exact_mod_cast hq
  omega

/-- The binary64 rounded value of a quotient is positive. -/
theorem mval_flDivM_pos (a b : ℕ) (ha : 1 ≤ a) (hb : 1 ≤ b) : 0 < mval (flDivM a b) := by
  unfold mval
  apply mul_pos _ (zpow_pos two_pos _)
  have := flDivM_fst_lb a b ha hb
  have h1 : (0 : ℕ) < (flDivM a b).1 := lt_of_lt_of_le (by positivity) this
  exact_mod_cast h1

/-- Monotonicity of binary64 rounding of quotients, in the value of the
quotient. -/
theorem mval_flDivM_mono (a1 b1 a2 b2 : ℕ) (ha1 : 1 ≤ a1) (hb1 : 1 ≤ b1)
    (ha2 : 1 ≤ a2) (hb2 : 1 ≤ b2) (hq : (a1 : ℚ) / b1 ≤ (a2 : ℚ) / b2) :
    mval (flDivM a1 b1) ≤ mval (flDivM a2 b2) := by
  have hi : ilogR a1 b1 ≤ ilogR a2 b2 := ilogR_mono a1 b1 a2 b2 ha1 hb1 ha2 hb2 hq
  rcases eq_or_lt_of_le hi with heq | hlt
  · rw [mval_flDivM a1 b1 hb1, mval_flDivM a2 b2 hb2, ← heq]
    apply mul_le_mul_of_nonneg_right _ (le_of_lt (zpow_pos two_pos _))
    have hmono : rneInt ((a1 : ℚ) / b1 * (2 : ℚ) ^ (-(ilogR a1 b1 - 52))) ≤
        rneInt ((a2 : ℚ) / b2 * (2 : ℚ) ^ (-(ilogR a1 b1 - 52))) :=
      rneInt_mono (mul_le_mul_of_nonneg_right hq (le_of_lt (zpow_pos two_pos _)))
    exact_mod_cast hmono
  · have hub : mval (flDivM a1 b1) ≤ (2 : ℚ) ^ (ilogR a1 b1 - 52 + 53) := by
      unfold mval
      rw [flDivM_snd]
      have h1 : ((flDivM a1 b1).1 : ℚ) ≤ (2 : ℚ) ^ (53 : ℤ) := by
        have := flDivM_fst_ub a1 b1 ha1 hb1
        have hcast : ((flDivM a1 b1).1 : ℚ) ≤ ((2 ^ 53 : ℕ) : ℚ) := by exact_mod_cast this
        rw [q_pow_nat] at hcast
        exact_mod_cast hcast
      calc ((flDivM a1 b1).1 : ℚ) * (2 : ℚ) ^ (ilogR a1 b1 - 52) ≤
            (2 : ℚ) ^ (53 : ℤ) * (2 : ℚ) ^ (ilogR a1 b1 - 52) :=
            mul_le_mul_of_nonneg_right h1 (le_of_lt (zpow_pos two_pos _))
        _ = (2 : ℚ) ^ (ilogR a1 b1 - 52 + 53) := by
            rw [← zpow_add₀ (two_ne_zero)]
            congr 1
            omega
    have hlb : (2 : ℚ) ^ (ilogR a2 b2 - 52 + 52) ≤ mval (flDivM a2 b2) := by
      unfold mval
      rw [flDivM_snd]
      have h1 : (2 : ℚ) ^ (52 : ℤ) ≤ ((flDivM a2 b2).1 : ℚ) := by
        have := flDivM_fst_lb a2 b2 ha2 hb2
        have hcast : ((2 ^ 52 : ℕ) : ℚ) ≤ ((flDivM a2 b2).1 : ℚ) := by exact_mod_cast this
        rw [q_pow_nat] at hcast
        exact_mod_cast hcast
      calc (2 : ℚ) ^ (ilogR a2 b2 - 52 + 52) = (2 : ℚ) ^ (52 : ℤ) * (2 : ℚ) ^ (ilogR a2 b2 - 52) := by
            rw [← zpow_add₀ (two_ne_zero)]
            congr 1
            omega
        _ ≤ ((flDivM a2 b2).1 : ℚ) * (2 : ℚ) ^ (ilogR a2 b2 - 52) :=
            mul_le_mul_of_nonneg_right h1 (le_of_lt (zpow_pos two_pos _))
    calc mval (flDivM a1 b1) ≤ (2 : ℚ) ^ (ilogR a1 b1 - 52 + 53) := hub
      _ ≤ (2 : ℚ) ^ (ilogR a2 b2 - 52 + 52) := zpow_le_zpow_right₀ one_le_two (by omega)
      _ ≤ mval (flDivM a2 b2) := hlb

/-- For a fraction at most one the computed binade is nonpositive. -/
theorem ilogR_nonpos (s f : ℕ) (hs : 1 ≤ s) (hsf : s ≤ f) : ilogR s f ≤ 0 := by
  have hf : 1 ≤ f := le_trans hs hsf
  have hchar := ilogR_char s f hs hf
  have hq1 : (s : ℚ) / f ≤ 1 := by
    rw [div_le_one (by exact_mod_cast hf : (0 : ℚ) < (f : ℚ))]
    exact_mod_cast hsf
  have h2 : (2 : ℚ) ^ ilogR s f ≤ (2 : ℚ) ^ (0 : ℤ) := by
    rw [zpow_zero]
    exact hchar.1.trans hq1
  exact (zpow_le_zpow_iff_right₀ one_lt_two).mp h2

/-- The final truncation of `pyRatioTerm` is the floor of the rational value
of the mantissa/exponent pair. -/
theorem trunc_floor (m : ℕ) (e : ℤ) :
    (if e ≤ 0 then m / 2 ^ (-e).toNat else m * 2 ^ e.toNat) =
      (⌊(m : ℚ) * (2 : ℚ) ^ e⌋).toNat := by
  split
  · rename_i h
    have hk : (((-e).toNat : ℕ) : ℤ) = -e := Int.toNat_of_nonneg (by omega)
    have hval : (m : ℚ) * (2 : ℚ) ^ e = (m : ℚ) / ((2 ^ (-e).toNat : ℕ) : ℚ) := by
      rw [q_pow_nat, hk, div_eq_mul_inv, ← zpow_neg, neg_neg]
    rw [hval, int_floor_nat_div, Int.toNat_natCast]
  · rename_i h
    have hk : ((e.toNat : ℕ) : ℤ) = e := Int.toNat_of_nonneg (by omega)
    have hval : (m : ℚ) * (2 : ℚ) ^ e = ((m * 2 ^ e.toNat : ℕ) : ℚ) := by
      push_cast
      rw [← zpow_natCast (2 : ℚ) e.toNat, hk]
    rw [hval, Int.floor_natCast, Int.toNat_natCast]

/-- The fraction fed to the second rounding step has value 50 times the
rounded quotient. -/
theorem step2_input_val (s f : ℕ) (hs : 1 ≤ s) (hsf : s ≤ f) :
    ((50 * (flDivM s f).1 : ℕ) : ℚ) / ((2 ^ (-(flDivM s f).2).toNat : ℕ) : ℚ) =
      50 * mval (flDivM s f) := by
  have he : (flDivM s f).2 ≤ 0 := by
    rw [flDivM_snd]
    have := ilogR_nonpos s f hs hsf
    omega
  have hk : (((-(flDivM s f).2).toNat : ℕ) : ℤ) = -(flDivM s f).2 :=
    Int.toNat_of_nonneg (by omega)
  unfold mval
  rw [q_pow_nat, hk]
  push_cast
  rw [div_eq_mul_inv, ← zpow_neg, neg_neg]
  ring

/-- The exact CPython evaluation of `int(s / f * 50)` is monotone in the
numerator (for fractions in the unit interval). -/
theorem pyRatioTerm_mono (s1 s2 f : ℕ) (h1 : 1 ≤ s1) (h12 : s1 ≤ s2) (h2f : s2 ≤ f) :
    pyRatioTerm s1 f ≤ pyRatioTerm s2 f := by
  have h2 : 1 ≤ s2 := le_trans h1 h12
  have h1f : s1 ≤ f := le_trans h12 h2f
  have hf : 1 ≤ f := le_trans h2 h2f
  have hm1 : 1 ≤ (flDivM s1 f).1 :=
    le_trans (by norm_num) (flDivM_fst_lb s1 f h1 hf)
  have hm2 : 1 ≤ (flDivM s2 f).1 :=
    le_trans (by norm_num) (flDivM_fst_lb s2 f h2 hf)
  simp only [pyRatioTerm]
  rw [trunc_floor, trunc_floor]
  have goal_eq : ∀ (X : Nat × Int), ((X.1 : ℚ) * (2 : ℚ) ^ X.2) = mval X := fun X => rfl
  rw [goal_eq, goal_eq]
  apply Int.toNat_le_toNat
  apply Int.floor_le_floor
  apply mval_flDivM_mono
  · omega
  · exact Nat.one_le_two_pow
  · omega
  · exact Nat.one_le_two_pow
  · rw [step2_input_val s1 f h1 h1f, step2_input_val s2 f h2 h2f]
    have hinner : mval (flDivM s1 f) ≤ mval (flDivM s2 f) := by
      apply mval_flDivM_mono s1 f s2 f h1 hf h2 hf
      have hfpos : (0 : ℚ) < (f : ℚ) := by exact_mod_cast hf
      apply div_le_div_of_nonneg_right ?_ (le_of_lt hfpos)
      exact_mod_cast h12
    linarith

/-! ## C5: risk score bounds and monotonicity -/

/-- C5: the content risk score is always within [0, 100] (it is a natural
number capped at 100), and with the total file count held fixed it is
monotone under adding sensitive files: a sensitive list extended in place
(sublist order) never lowers the score. -/
theorem risk_score_bounds_and_monotone :
    (∀ b files, 0 ≤ (ContentAnalyzer.analyze b files).risk_score ∧
        (ContentAnalyzer.analyze b files).risk_score ≤ 100) ∧
    (∀ files1 files2 s1 s2, files1.length = files2.length → s1.Sublist s2 →
        s2.length ≤ files2.length →
        ContentAnalyzer.calculate_risk_score files1 s1 ≤
          ContentAnalyzer.calculate_risk_score files2 s2) := by
  have hcalc_le : ∀ files s, ContentAnalyzer.calculate_risk_score files s ≤ 100 := by
    intro files s
    simp only [ContentAnalyzer.calculate_risk_score]
    split
    · omega
    · exact min_le_right _ _
  constructor
  · intro b files
    refine ⟨Nat.zero_le _, ?_⟩
    simp only [ContentAnalyzer.analyze]
    split
    · simp
    · exact hcalc_le _ _
  · intro files1 files2 s1 s2 hlen hsub hs2
    cases files1 with
    | nil =>
        cases files2 with
        | nil => exact le_rfl
        | cons b2 t2 => simp at hlen
    | cons a1 t1 =>
        cases files2 with
        | nil => simp at hlen
        | cons b2 t2 =>
            simp only [ContentAnalyzer.calculate_risk_score, List.isEmpty_cons,
              Bool.false_eq_true, if_false]
            rw [hlen]
            apply min_le_min _ le_rfl
            have hbonus : (s1.filter ContentAnalyzer.isHighRisk).length ≤
                (s2.filter ContentAnalyzer.isHighRisk).length :=
              (hsub.filter ContentAnalyzer.isHighRisk).length_le
            have hratio : (if s1.isEmpty then 0
                  else pyRatioTerm s1.length (b2 :: t2).length) ≤
                (if s2.isEmpty then 0
                  else pyRatioTerm s2.length (b2 :: t2).length) := by
              cases s1 with
              | nil =>
                  simp only [List.isEmpty_nil, if_true]
                  omega
              | cons c u =>
                  cases s2 with
                  | nil => cases hsub
                  | cons d v =>
                      simp only [List.isEmpty_cons, Bool.false_eq_true, if_false]
                      apply pyRatioTerm_mono
                      · simp
                      · exact hsub.length_le
                      · exact hs2
            omega

/-- Witness for C5: bounds at one input, monotonicity at a concrete pair of
equal-length listings where one extra file is sensitive. -/
theorem risk_score_bounds_witness :
    (ContentAnalyzer.analyze "b" ["readme.txt"]).risk_score ≤ 100 ∧
    ContentAnalyzer.calculate_risk_score ["a.txt", "b.txt"] [] ≤
      ContentAnalyzer.calculate_risk_score ["a.txt", "token.txt"] ["token.txt"] :=
  ⟨(risk_score_bounds_and_monotone.1 "b" ["readme.txt"]).2,
    risk_score_bounds_and_monotone.2 ["a.txt", "b.txt"] ["a.txt", "token.txt"] [] ["token.txt"]
      (by decide) (by decide) (by decide)⟩

/-! ## C1: the risk score formula -/

set_option maxRecDepth 100000 in
/-- C1 counterexample: on 50 files with 29 sensitive ones (none high-risk)
the code computes `int(29 / 50 * 50) = 28` in binary64, one less than the
claimed `floor(50 * 29 / 50) = 29`, so the claimed exact-floor formula gives
49 while the program yields 48. -/
theorem risk_score_floor_counterexample :
    (ContentAnalyzer.analyze "b" c1files).risk_score = 48 ∧
    min (10 + specSizeTier c1files.length
        + (50 * (ContentAnalyzer.detect_sensitive_files c1files).length) / c1files.length
        + 5 * specHighRiskCount (ContentAnalyzer.detect_sensitive_files c1files)) 100 = 49 ∧
    (ContentAnalyzer.analyze "b" c1files).risk_score ≠
      min (10 + specSizeTier c1files.length
          + (50 * (ContentAnalyzer.detect_sensitive_files c1files).length) / c1files.length
          + 5 * specHighRiskCount (ContentAnalyzer.detect_sensitive_files c1files)) 100 := by
  refine ⟨?_, ?_, ?_⟩ <;> decide

/-- C1 as amended: for a non-empty list the risk score is the base 10 plus
the size tier plus the binary64 evaluation of `int(ratio * 50)` plus 5 per
high-risk sensitive file, with only the final sum capped at 100; the empty
list yields the all-zero result. -/
theorem risk_score_formula :
    ∀ b files,
      (files ≠ [] → (ContentAnalyzer.analyze b files).risk_score =
        min (10 + specSizeTier files.length
            + specRatioTerm (ContentAnalyzer.detect_sensitive_files files).length files.length
            + 5 * specHighRiskCount (ContentAnalyzer.detect_sensitive_files files)) 100) ∧
      ((ContentAnalyzer.analyze b []).risk_score = 0 ∧
        (ContentAnalyzer.analyze b []).sensitive_files = [] ∧
        (ContentAnalyzer.analyze b []).file_types = [] ∧
        (ContentAnalyzer.analyze b []).findings = []) := by
  intro b files
  refine ⟨fun h => ?_, rfl, rfl, rfl, rfl⟩
  cases files with
  | nil => exact absurd rfl h
  | cons a t =>
      have hcount : specHighRiskCount (ContentAnalyzer.detect_sensitive_files (a :: t)) =
          ((ContentAnalyzer.detect_sensitive_files (a :: t)).filter
            ContentAnalyzer.isHighRisk).length := rfl
      simp only [ContentAnalyzer.analyze, List.isEmpty_cons, Bool.false_eq_true, if_false,
        ContentAnalyzer.calculate_risk_score, specSizeTier, specRatioTerm, hcount]
      cases hd : ContentAnalyzer.detect_sensitive_files (a :: t) with
      | nil => simp
      | cons c u => simp

/-- Witness for C1: the amended formula at a one-file listing. -/
theorem risk_score_formula_witness :
    (["x.sql"] : List String) ≠ [] ∧
    (ContentAnalyzer.analyze "b" ["x.sql"]).risk_score =
      min (10 + specSizeTier (["x.sql"] : List String).length
          + specRatioTerm (ContentAnalyzer.detect_sensitive_files ["x.sql"]).length
              (["x.sql"] : List String).length
          + 5 * specHighRiskCount (ContentAnalyzer.detect_sensitive_files ["x.sql"])) 100 :=
  ⟨by decide, (risk_score_formula "b" ["x.sql"]).1 (by decide)⟩
